import Mathlib

/-!
Shallow embedding of the `tia-lu-preprocessing` repository
(`food_statistics.py`, `preprocessing.py`): a column-oriented dataset
(`Dict[str, List[Any]]` with `None` / numbers / strings as cells), the
`Statistics` engine, and the mutating preprocessing operations
(`fillna`, `dropna`, `isna`/`notna`, `minMax_scaler`, `label_encode`,
`oneHot_encode`, the `Preprocessing.encode` facade).

Python cells are modelled by `Value` (numbers as exact rationals,
strings, and `None` as `Value.null`); a Python `dict` is modelled by an
association list in insertion order, with `setCol` overwriting in place
and appending fresh keys at the end, as CPython dicts do.  Raised
exceptions are modelled by `PyError`; operations that mutate the dataset
return `Option PyError × Dataset` so that the state at the moment an
exception propagates is still visible.  Mid-expression column/index
accesses go through `Except`.  The target-column argument of each
operation is a `List String`, the iteration order of the Python set.
-/

/-- A Python cell: `None`, a number (`int`/`float`, modelled exactly as `ℚ`),
or a string. -/
inductive Value where
  | null : Value
  | num : ℚ → Value
  | str : String → Value
deriving DecidableEq, Repr

/-- The exceptions the source can raise. -/
inductive PyError where
  | keyError : String → PyError
  | indexError : PyError
  | typeError : String → PyError
  | valueError : String → PyError
deriving DecidableEq, Repr

/-- The dataset: a name → column insertion-ordered mapping. -/
abbrev Dataset := List (String × List Value)

instance {ε α : Type _} [DecidableEq ε] [DecidableEq α] : DecidableEq (Except ε α) :=
  fun x y =>
  match x, y with
  | .ok a, .ok b =>
    if h : a = b then isTrue (by rw [h]) else isFalse (fun hh => h (Except.ok.inj hh))
  | .error e, .error f =>
    if h : e = f then isTrue (by rw [h]) else isFalse (fun hh => h (Except.error.inj hh))
  | .ok _, .error _ => isFalse (fun hh => Except.noConfusion hh)
  | .error _, .ok _ => isFalse (fun hh => Except.noConfusion hh)

/-- `dataset[c]` as an `Option`: the first binding of key `c`. -/
def lookupCol : Dataset → String → Option (List Value)
  | [], _ => none
  | (k, v) :: rest, c => if k = c then some v else lookupCol rest c

/-- `dataset[c] = col`: overwrite in place if the key exists, else append
(CPython dict assignment). -/
def setCol : Dataset → String → List Value → Dataset
  | [], c, col => [(c, col)]
  | (k, v) :: rest, c, col =>
    if k = c then (c, col) :: rest else (k, v) :: setCol rest c col

/-- `del dataset[c]`: drop the first binding of key `c`. -/
def delCol : Dataset → String → Dataset
  | [], _ => []
  | (k, v) :: rest, c => if k = c then rest else (k, v) :: delCol rest c

/-- The key list, in insertion order (`list(dataset.keys())`). -/
def keysOf (d : Dataset) : List String := d.map Prod.fst

/-- The column of `c`, defaulting to `[]` (used only after the column's
existence has been established). -/
def colD (d : Dataset) (c : String) : List Value := (lookupCol d c).getD []

/-- Is the cell a Python number (`isinstance(value, (int, float))`)? -/
def isNum : Value → Bool
  | .num _ => true
  | _ => false

/-- The numeric content of a cell (used only after numeric validation). -/
def numVal : Value → ℚ
  | .num q => q
  | _ => 0

/-- `Statistics._validate_column`. -/
def Statistics.validateColumn (d : Dataset) (c : String) : Except PyError Unit :=
  match lookupCol d c with
  | none => .error (.keyError c)
  | some _ => .ok ()

/-- `Statistics._validate_numeric_column`: the column must exist and every
value (including any `None`) must be an `int`/`float`. -/
def Statistics.validateNumericColumn (d : Dataset) (c : String) : Except PyError Unit :=
  match lookupCol d c with
  | none => .error (.keyError c)
  | some data => if data.all isNum then .ok () else .error (.typeError c)

/-- `Statistics.mean`: validate, then `sum(data) / len(data)` over the whole
column (`0.0` when the column is the empty list). -/
def Statistics.mean (d : Dataset) (c : String) : Except PyError ℚ :=
  match Statistics.validateNumericColumn d c with
  | .error e => .error e
  | .ok _ =>
    let data := colD d c
    if data = [] then .ok 0 else .ok ((data.map numVal).sum / data.length)

/-- Insertion into a list sorted by the boolean comparator `le`. -/
def insertLe (le : α → α → Bool) (a : α) : List α → List α
  | [] => [a]
  | b :: bs => if le a b then a :: b :: bs else b :: insertLe le a bs

/-- Insertion sort by the boolean comparator `le` (models Python `sorted`
on inputs whose elements are pairwise comparable). -/
def sortLe (le : α → α → Bool) (l : List α) : List α := l.foldr (insertLe le) []

/-- `Statistics.median`: sort the (validated) column ascending and take the
central value (average of the two central ones for an even size). -/
def Statistics.median (d : Dataset) (c : String) : Except PyError ℚ :=
  match Statistics.validateNumericColumn d c with
  | .error e => .error e
  | .ok _ =>
    let sorted := sortLe (fun a b => a ≤ b) ((colD d c).map numVal)
    let size := sorted.length
    if size < 1 then .ok 0
    else if size % 2 = 0 then
      .ok ((sorted.getD (size / 2 - 1) 0 + sorted.getD (size / 2) 0) / 2)
    else .ok (sorted.getD (size / 2) 0)

/-- The distinct values of a list in first-occurrence order (the key order
of a Python counting dict built by one left-to-right pass). -/
def firstOccs : List Value → List Value
  | [] => []
  | v :: rest => v :: (firstOccs rest).filter (fun w => w != v)

/-- `Statistics.absolute_frequency`: distinct value → count, keyed in
first-occurrence order (`{}` on an empty column). -/
def Statistics.absoluteFrequency (d : Dataset) (c : String) :
    Except PyError (List (Value × ℕ)) :=
  match Statistics.validateColumn d c with
  | .error e => .error e
  | .ok _ =>
    let data := colD d c
    .ok ((firstOccs data).map (fun v => (v, data.count v)))

/-- `Statistics.mode`: the values of maximal absolute frequency, in
first-occurrence order (`[]` on an empty column). -/
def Statistics.mode (d : Dataset) (c : String) : Except PyError (List Value) :=
  match Statistics.validateColumn d c with
  | .error e => .error e
  | .ok _ =>
    let data := colD d c
    if data = [] then .ok []
    else
      match Statistics.absoluteFrequency d c with
      | .error e => .error e
      | .ok freqs =>
        let maxFrequency := (freqs.map Prod.snd).foldl max 0
        .ok ((freqs.filter (fun pr => pr.2 == maxFrequency)).map Prod.fst)

/-- `Statistics._deviation`: `value - mean` over the whole column. -/
def Statistics.deviationList (d : Dataset) (c : String) : Except PyError (List ℚ) :=
  match Statistics.mean d c with
  | .error e => .error e
  | .ok m => .ok (((colD d c).map numVal).map (fun x => x - m))

/-- `Statistics.variance`: validate, `0.0` on the empty column, else the
mean of squared deviations from the mean (population variance). -/
def Statistics.variance (d : Dataset) (c : String) : Except PyError ℚ :=
  match Statistics.validateNumericColumn d c with
  | .error e => .error e
  | .ok _ =>
    let data := colD d c
    if data = [] then .ok 0
    else
      match Statistics.mean d c with
      | .error e => .error e
      | .ok m => .ok (((data.map numVal).map (fun x => (x - m) ^ 2)).sum / data.length)

/-- `Statistics.stdev`: validate, accumulate the squared deviations, `0.0`
on the empty column, else `(total / N) ** 0.5`. -/
noncomputable def Statistics.stdev (d : Dataset) (c : String) : Except PyError ℝ :=
  match Statistics.validateNumericColumn d c with
  | .error e => .error e
  | .ok _ =>
    let data := colD d c
    match Statistics.deviationList d c with
    | .error e => .error e
    | .ok deviations =>
      if data = [] then .ok 0
      else
        .ok (Real.sqrt ((((deviations.map (fun t => t ^ 2)).foldl (· + ·) 0)
          / data.length : ℚ) : ℝ))

/-- `_get_target_columns`: an empty target-column argument means all columns
currently in the dataset. -/
def getTargetColumns (d : Dataset) (columns : List String) : List String :=
  match columns with
  | [] => keysOf d
  | _ => columns

/-- `data[col][idx]` with the exceptions both subscripts can raise. -/
def getCell (d : Dataset) (c : String) (i : ℕ) : Except PyError Value :=
  match lookupCol d c with
  | none => .error (.keyError c)
  | some col =>
    match col[i]? with
    | none => .error .indexError
    | some v => .ok v

/-- `any(data[col][idx] is None for col in ts)`, short-circuiting like the
Python generator. -/
def rowAnyNull (d : Dataset) (ts : List String) (i : ℕ) : Except PyError Bool :=
  match ts with
  | [] => .ok false
  | c :: rest =>
    match getCell d c i with
    | .error e => .error e
    | .ok v => if v = .null then .ok true else rowAnyNull d rest i

/-- `all(data[col][idx] is not None for col in ts)`, short-circuiting. -/
def rowAllNotNull (d : Dataset) (ts : List String) (i : ℕ) : Except PyError Bool :=
  match ts with
  | [] => .ok true
  | c :: rest =>
    match getCell d c i with
    | .error e => .error e
    | .ok v => if v = .null then .ok false else rowAllNotNull d rest i

/-- The row `idx_line`, restricted to the target columns in order. -/
def rowValues (d : Dataset) (ts : List String) (i : ℕ) : Except PyError (List Value) :=
  match ts with
  | [] => .ok []
  | c :: rest =>
    match getCell d c i with
    | .error e => .error e
    | .ok v =>
      match rowValues d rest i with
      | .error e => .error e
      | .ok vs => .ok (v :: vs)

/-- The row loop of `isna`: collect the target-restricted rows that have at
least one null target cell. -/
def isnaLoop (d : Dataset) (ts : List String) : List ℕ → Except PyError (List (List Value))
  | [] => .ok []
  | i :: rest =>
    match rowAnyNull d ts i with
    | .error e => .error e
    | .ok b =>
      if b then
        match rowValues d ts i with
        | .error e => .error e
        | .ok row =>
          match isnaLoop d ts rest with
          | .error e => .error e
          | .ok others => .ok (row :: others)
      else isnaLoop d ts rest

/-- The row loop of `notna`: collect the target-restricted rows whose target
cells are all non-null. -/
def notnaLoop (d : Dataset) (ts : List String) : List ℕ → Except PyError (List (List Value))
  | [] => .ok []
  | i :: rest =>
    match rowAllNotNull d ts i with
    | .error e => .error e
    | .ok b =>
      if b then
        match rowValues d ts i with
        | .error e => .error e
        | .ok row =>
          match notnaLoop d ts rest with
          | .error e => .error e
          | .ok others => .ok (row :: others)
      else notnaLoop d ts rest

/-- Reassemble row-major collected rows into the column-oriented result
dict, keyed in target order. -/
def zipCols : List String → List (List Value) → Dataset
  | [], _ => []
  | c :: cs, rows => (c, rows.filterMap (·.head?)) :: zipCols cs (rows.map (·.tail))

/-- `MissingValueProcessor.isna` on an explicit target list. -/
def isnaTs (d : Dataset) (ts : List String) : Except PyError Dataset :=
  match ts with
  | [] => .error .indexError
  | c0 :: _ =>
    match lookupCol d c0 with
    | none => .error (.keyError c0)
    | some col0 =>
      match isnaLoop d ts (List.range col0.length) with
      | .error e => .error e
      | .ok rows => .ok (zipCols ts rows)

/-- `MissingValueProcessor.isna`. -/
def MissingValueProcessor.isna (d : Dataset) (columns : List String) :
    Except PyError Dataset :=
  isnaTs d (getTargetColumns d columns)

/-- `MissingValueProcessor.notna` on an explicit target list. -/
def notnaTs (d : Dataset) (ts : List String) : Except PyError Dataset :=
  match ts with
  | [] => .error .indexError
  | c0 :: _ =>
    match lookupCol d c0 with
    | none => .error (.keyError c0)
    | some col0 =>
      match notnaLoop d ts (List.range col0.length) with
      | .error e => .error e
      | .ok rows => .ok (zipCols ts rows)

/-- `MissingValueProcessor.notna`. -/
def MissingValueProcessor.notna (d : Dataset) (columns : List String) :
    Except PyError Dataset :=
  notnaTs d (getTargetColumns d columns)

/-- The fill scalar of one column: `mean`/`median` via the statistics engine,
`mode` via its first returned value (falling back to the default), the
default for `default_value` — and, for any other method string, silently the
initial `fill_value = 0`. -/
def fillValueFor (d : Dataset) (c : String) (method : String) (defaultValue : Value) :
    Except PyError Value :=
  if method = "mean" then
    match Statistics.mean d c with
    | .error e => .error e
    | .ok m => .ok (.num m)
  else if method = "median" then
    match Statistics.median d c with
    | .error e => .error e
    | .ok m => .ok (.num m)
  else if method = "mode" then
    match Statistics.mode d c with
    | .error e => .error e
    | .ok ms => .ok (ms.headD defaultValue)
  else if method = "default_value" then .ok defaultValue
  else .ok (.num 0)

/-- The per-column loop of `fillna`: compute the fill scalar, then overwrite
every null cell of the column with it. -/
def fillnaCols (d : Dataset) (ts : List String) (method : String) (defaultValue : Value) :
    Option PyError × Dataset :=
  match ts with
  | [] => (none, d)
  | c :: rest =>
    match fillValueFor d c method defaultValue with
    | .error e => (some e, d)
    | .ok fillValue =>
      match lookupCol d c with
      | none => (some (.keyError c), d)
      | some data =>
        fillnaCols (setCol d c (data.map (fun v => if v = .null then fillValue else v)))
          rest method defaultValue

/-- `MissingValueProcessor.fillna`. -/
def MissingValueProcessor.fillna (d : Dataset) (columns : List String)
    (method : String) (defaultValue : Value) : Option PyError × Dataset :=
  fillnaCols d (getTargetColumns d columns) method defaultValue

/-- The index-collecting loop of `dropna`. -/
def badIndices (d : Dataset) (ts : List String) : List ℕ → Except PyError (List ℕ)
  | [] => .ok []
  | i :: rest =>
    match rowAnyNull d ts i with
    | .error e => .error e
    | .ok b =>
      match badIndices d ts rest with
      | .error e => .error e
      | .ok more => .ok (if b then i :: more else more)

/-- `for idx in reversed_idx_del_list: del data[col][idx]`, per column. -/
def eraseDesc (col : List Value) (idxs : List ℕ) : List Value :=
  idxs.foldl (fun acc i => acc.eraseIdx i) col

/-- `MissingValueProcessor.dropna` on an explicit target list: collect the
indices of rows with a null target cell, sort them descending, then delete
them from every column of the dataset. -/
def dropnaTs (d : Dataset) (ts : List String) : Option PyError × Dataset :=
  match ts with
  | [] => (some .indexError, d)
  | c0 :: _ =>
    match lookupCol d c0 with
    | none => (some (.keyError c0), d)
    | some col0 =>
      match badIndices d ts (List.range col0.length) with
      | .error e => (some e, d)
      | .ok idxs =>
        let reversedIdxDelList := sortLe (fun i j => decide (j ≤ i)) idxs
        (none, d.map (fun entry => (entry.1, eraseDesc entry.2 reversedIdxDelList)))

/-- `MissingValueProcessor.dropna`. -/
def MissingValueProcessor.dropna (d : Dataset) (columns : List String) :
    Option PyError × Dataset :=
  dropnaTs d (getTargetColumns d columns)

/-- `min(valid_values)` (used on non-empty input only). -/
def listMin : List ℚ → ℚ
  | [] => 0
  | x :: xs => xs.foldl min x

/-- `max(valid_values)` (used on non-empty input only). -/
def listMax : List ℚ → ℚ
  | [] => 0
  | x :: xs => xs.foldl max x

/-- The per-column loop of `Scaler.minMax_scaler`: validate, compute min/max
over the non-null values, and rewrite the column ((x − min)/(max − min),
`0.0` for every non-null cell when max = min, nulls kept); a column whose
non-null value list is empty is skipped. -/
def minMaxScaleCols (d : Dataset) (ts : List String) : Option PyError × Dataset :=
  match ts with
  | [] => (none, d)
  | c :: rest =>
    match Statistics.validateNumericColumn d c with
    | .error e => (some e, d)
    | .ok _ =>
      let data := colD d c
      let validValues := data.filter (fun x => x != .null)
      if validValues = [] then minMaxScaleCols d rest
      else
        let minValue := listMin (validValues.map numVal)
        let maxValue := listMax (validValues.map numVal)
        let newCol :=
          if maxValue = minValue then
            data.map (fun x => if x != .null then Value.num 0 else Value.null)
          else
            data.map (fun x => if x != .null then
              Value.num ((numVal x - minValue) / (maxValue - minValue)) else Value.null)
        minMaxScaleCols (setCol d c newCol) rest

/-- `Scaler.minMax_scaler`. -/
def Scaler.minMaxScaler (d : Dataset) (columns : List String) : Option PyError × Dataset :=
  minMaxScaleCols d (getTargetColumns d columns)

/-- `v if v is not None else '__MISSING__'`. -/
def pySub (v : Value) : Value := if v = .null then .str "__MISSING__" else v

/-- `str(value)`, as interpolated into generated one-hot column names. -/
def pyStr : Value → String
  | .null => "None"
  | .num q => toString q
  | .str s => s

/-- Is the cell a string? -/
def isStr : Value → Bool
  | .str _ => true
  | _ => false

/-- Code-point lexicographic `<` on character lists (Python string order). -/
def strLtChars : List Char → List Char → Bool
  | [], [] => false
  | [], _ :: _ => true
  | _ :: _, [] => false
  | a :: as, b :: bs =>
    if a.toNat < b.toNat then true
    else if b.toNat < a.toNat then false
    else strLtChars as bs

/-- Code-point lexicographic `≤` on strings. -/
def strLe (s t : String) : Bool := !(strLtChars t.data s.data)

/-- Python `<`-comparability is only used on same-kind cells here. -/
def valueLe : Value → Value → Bool
  | .num a, .num b => a ≤ b
  | .str a, .str b => strLe a b
  | _, _ => true

/-- `sorted(set(values))`: raises `TypeError` when a string is compared with
a number, which happens exactly when both kinds occur among the distinct
values; otherwise sorts them by the common ascending order. -/
def sortCategories (vs : List Value) : Except PyError (List Value) :=
  if vs.any isNum && vs.any isStr then .error (.typeError "unorderable types")
  else .ok (sortLe valueLe vs)

/-- `Encoder.label_encode`: per column, replace nulls by the sentinel, sort
the distinct values, and overwrite each cell with the sorted rank of its
value. -/
def Encoder.labelEncode (d : Dataset) (columns : List String) : Option PyError × Dataset :=
  match columns with
  | [] => (none, d)
  | c :: rest =>
    match lookupCol d c with
    | none => (some (.keyError c), d)
    | some data =>
      let values := data.map pySub
      match sortCategories (firstOccs values) with
      | .error e => (some e, d)
      | .ok cats =>
        Encoder.labelEncode
          (setCol d c (values.map (fun v => Value.num (cats.indexOf v : ℕ)))) rest

/-- `Encoder.oneHot_encode`: per column, for each distinct value (sorted,
sentinel included) assign a fresh `"col_value"` indicator column, then
delete the original column. -/
def Encoder.oneHotEncode (d : Dataset) (columns : List String) : Option PyError × Dataset :=
  match columns with
  | [] => (none, d)
  | c :: rest =>
    match lookupCol d c with
    | none => (some (.keyError c), d)
    | some data =>
      let values := data.map pySub
      match sortCategories (firstOccs values) with
      | .error e => (some e, d)
      | .ok cats =>
        let withNew := cats.foldl (fun acc cat =>
          setCol acc (c ++ "_" ++ pyStr cat)
            (values.map (fun v => if v = cat then Value.num 1 else Value.num 0))) d
        Encoder.oneHotEncode (delCol withNew c) rest

/-- `Preprocessing.encode`: an empty column set is a warned no-op; otherwise
dispatch on the method name, rejecting unknown ones. -/
def Preprocessing.encode (d : Dataset) (columns : List String) (method : String) :
    Option PyError × Dataset :=
  if columns = [] then (none, d)
  else if method = "label" then Encoder.labelEncode d columns
  else if method = "oneHot" then Encoder.oneHotEncode d columns
  else (some (.valueError method), d)

/-- Statement-side description used by the `dropna` theorem: row `i` has a
null in at least one target column (total Boolean version of the row test,
meaningful when the targets exist and `i` is in range). -/
def rowHasNullB (d : Dataset) (ts : List String) (i : ℕ) : Bool :=
  ts.any (fun c => (colD d c)[i]? == some Value.null)

/-- Statement-side description used by the `dropna` theorem: the indices of
the rows `dropna` keeps, in ascending order. -/
def keepIdx (d : Dataset) (ts : List String) (n : ℕ) : List ℕ :=
  (List.range n).filter (fun i => !rowHasNullB d ts i)

/-! ### Basic lemmas about the dataset dictionary -/

theorem vnum_bne_null (q : ℚ) : (Value.num q != Value.null) = true := rfl

theorem vnum_ne_null (q : ℚ) : ¬(Value.num q = Value.null) := fun h => Value.noConfusion h

theorem lookup_setCol_self (d : Dataset) (c : String) (col : List Value) :
    lookupCol (setCol d c col) c = some col := by
  induction d with
  | nil => simp [setCol, lookupCol]
  | cons e rest ih =>
    obtain ⟨k, v⟩ := e
    by_cases h : k = c <;> simp [setCol, lookupCol, h, ih]

theorem lookup_setCol_ne (d : Dataset) (c c' : String) (col : List Value) (h : c' ≠ c) :
    lookupCol (setCol d c col) c' = lookupCol d c' := by
  have h' : ¬(c = c') := fun hh => h (Eq.symm hh)
  induction d with
  | nil => simp [setCol, lookupCol, h']
  | cons e rest ih =>
    obtain ⟨k, v⟩ := e
    by_cases hk : k = c
    · subst hk
      simp [setCol, lookupCol, h']
    · simp [setCol, lookupCol, hk, ih]

theorem setCol_eq_append (d : Dataset) (c : String) (col : List Value)
    (h : lookupCol d c = none) : setCol d c col = d ++ [(c, col)] := by
  induction d with
  | nil => simp [setCol]
  | cons e rest ih =>
    obtain ⟨k, v⟩ := e
    by_cases hk : k = c
    · simp [lookupCol, hk] at h
    · simp [lookupCol, hk] at h
      simp [setCol, hk, ih h]

theorem lookup_append_none (d e : Dataset) (c : String) (h : lookupCol d c = none) :
    lookupCol (d ++ e) c = lookupCol e c := by
  induction d with
  | nil => simp
  | cons p rest ih =>
    obtain ⟨k, v⟩ := p
    by_cases hk : k = c
    · simp [lookupCol, hk] at h
    · simp [lookupCol, hk] at h ⊢
      exact ih h

theorem delCol_append_left (d e : Dataset) (c : String) (h : (lookupCol d c).isSome) :
    delCol (d ++ e) c = delCol d c ++ e := by
  induction d with
  | nil => simp [lookupCol] at h
  | cons p rest ih =>
    obtain ⟨k, v⟩ := p
    by_cases hk : k = c
    · simp [delCol, hk]
    · simp [lookupCol, hk] at h
      simp [delCol, hk, ih h]

theorem length_delCol (d : Dataset) (c : String) (h : (lookupCol d c).isSome) :
    (delCol d c).length + 1 = d.length := by
  induction d with
  | nil => simp [lookupCol] at h
  | cons p rest ih =>
    obtain ⟨k, v⟩ := p
    by_cases hk : k = c
    · simp [delCol, hk]
    · simp [lookupCol, hk] at h
      simp [delCol, hk]
      exact ih h

theorem lookup_mem (d : Dataset) (c : String) (col : List Value)
    (h : lookupCol d c = some col) : (c, col) ∈ d := by
  induction d with
  | nil => simp [lookupCol] at h
  | cons p rest ih =>
    obtain ⟨k, v⟩ := p
    by_cases hk : k = c
    · subst hk
      simp [lookupCol] at h
      simp [h]
    · simp [lookupCol, hk] at h
      exact List.mem_cons_of_mem _ (ih h)

theorem lookup_map_snd (d : Dataset) (f : List Value → List Value) (c : String) :
    lookupCol (d.map (fun e => (e.1, f e.2))) c = (lookupCol d c).map f := by
  induction d with
  | nil => simp [lookupCol]
  | cons p rest ih =>
    obtain ⟨k, v⟩ := p
    by_cases hk : k = c <;> simp [lookupCol, hk, ih]

theorem keys_map_snd (d : Dataset) (f : List Value → List Value) :
    keysOf (d.map (fun e => (e.1, f e.2))) = keysOf d := by
  simp [keysOf]

/-! ### Lemmas about `firstOccs` and `sortLe` -/

theorem mem_firstOccs (l : List Value) (a : Value) : a ∈ firstOccs l ↔ a ∈ l := by
  induction l with
  | nil => simp [firstOccs]
  | cons v rest ih =>
    simp only [firstOccs, List.mem_cons, List.mem_filter]
    constructor
    · rintro (rfl | ⟨hm, _⟩)
      · exact .inl rfl
      · exact .inr (ih.mp hm)
    · rintro (rfl | hm)
      · exact .inl rfl
      · by_cases hv : a = v
        · exact .inl hv
        · exact .inr ⟨ih.mpr hm, by simp [bne, hv]⟩

theorem nodup_firstOccs (l : List Value) : (firstOccs l).Nodup := by
  induction l with
  | nil => simp [firstOccs]
  | cons v rest ih =>
    have hnot : v ∉ (firstOccs rest).filter (fun w => w != v) := by
      intro hmem
      have hne := (List.mem_filter.mp hmem).2
      simp at hne
    exact List.Nodup.cons hnot (ih.filter _)

theorem mem_insertLe (le : α → α → Bool) (a b : α) (l : List α) :
    b ∈ insertLe le a l ↔ b = a ∨ b ∈ l := by
  induction l with
  | nil => simp [insertLe]
  | cons x xs ih =>
    by_cases h : le a x
    · simp [insertLe, h, List.mem_cons]
    · simp [insertLe, h, List.mem_cons, ih]
      tauto

theorem count_insertLe [DecidableEq α] (le : α → α → Bool) (a b : α) (l : List α) :
    (insertLe le a l).count b = (a :: l).count b := by
  induction l with
  | nil => simp [insertLe]
  | cons x xs ih =>
    by_cases h : le a x
    · simp [insertLe, h]
    · simp only [insertLe, h, if_neg, Bool.false_eq_true, not_false_iff, ite_false]
      rw [List.count_cons, ih, List.count_cons, List.count_cons, List.count_cons]
      ring

theorem count_sortLe [DecidableEq α] (le : α → α → Bool) (l : List α) (b : α) :
    (sortLe le l).count b = l.count b := by
  induction l with
  | nil => rfl
  | cons x xs ih =>
    show (insertLe le x (sortLe le xs)).count b = _
    rw [count_insertLe, List.count_cons, List.count_cons, ih]

theorem mem_sortLe (le : α → α → Bool) (l : List α) (b : α) :
    b ∈ sortLe le l ↔ b ∈ l := by
  induction l with
  | nil => simp [sortLe]
  | cons x xs ih =>
    show b ∈ insertLe le x (sortLe le xs) ↔ _
    rw [mem_insertLe, ih, List.mem_cons]

theorem length_sortLe (le : α → α → Bool) (l : List α) :
    (sortLe le l).length = l.length := by
  induction l with
  | nil => rfl
  | cons x xs ih =>
    show (insertLe le x (sortLe le xs)).length = _
    have : ∀ (m : List α), (insertLe le x m).length = m.length + 1 := by
      intro m
      induction m with
      | nil => rfl
      | cons y ys ihm =>
        by_cases h : le x y <;> simp [insertLe, h, ihm]
    rw [this, ih, List.length_cons]

theorem nodup_sortLe [DecidableEq α] (le : α → α → Bool) (l : List α) (h : l.Nodup) :
    (sortLe le l).Nodup := by
  rw [List.nodup_iff_count_le_one] at h ⊢
  intro a
  rw [count_sortLe]
  exact h a

/-! ### Mixed string/number columns make the encoders' sort raise -/

theorem sortCategories_mixed_error (vs : List Value)
    (hnum : vs.any isNum) (hstr : vs.any isStr) :
    sortCategories vs = .error (.typeError "unorderable types") := by
  simp [sortCategories, hnum, hstr]

theorem mixed_error_core (data : List Value) (hnull : Value.null ∈ data)
    (hnum : data.any isNum) :
    sortCategories (firstOccs (data.map pySub)) = .error (.typeError "unorderable types") := by
  apply sortCategories_mixed_error
  · rw [List.any_eq_true] at hnum ⊢
    obtain ⟨v, hv, hvnum⟩ := hnum
    refine ⟨v, ?_, hvnum⟩
    rw [mem_firstOccs]
    refine List.mem_map.mpr ⟨v, hv, ?_⟩
    cases v <;> simp_all [pySub, isNum]
  · rw [List.any_eq_true]
    exact ⟨.str "__MISSING__", (mem_firstOccs _ _).mpr
      (List.mem_map.mpr ⟨.null, hnull, rfl⟩), rfl⟩

/-! ### Claim theorems -/

/-- C1 (counterexample): a column whose non-null values are all numeric but
which contains a null makes `mean` raise a `TypeError` instead of returning
the mean of the non-null values, and an all-null column raises too instead
of returning `0.0`. -/
theorem mean_null_column_cex :
    Statistics.mean [("a", [.num 1, .null])] "a" = .error (.typeError "a") ∧
    Statistics.mean [("b", [.null])] "b" = .error (.typeError "b") := by decide

/-- C1 (amended): `mean(col)` averages **all** values of the column and
returns `0.0` on an empty column, but only for columns whose every value is
numeric; a column containing any null (even with numeric non-null values)
fails with a `TypeError` from numeric validation. -/
theorem mean_spec (d : Dataset) (c : String) (data : List Value)
    (h : lookupCol d c = some data) :
    (data.all isNum →
      Statistics.mean d c =
        .ok (if data = [] then 0 else (data.map numVal).sum / data.length)) ∧
    (Value.null ∈ data → Statistics.mean d c = .error (.typeError c)) := by
  constructor
  · intro hall
    by_cases hd : data = [] <;>
      simp [Statistics.mean, Statistics.validateNumericColumn, h, hall, colD, hd]
  · intro hnull
    have hall : data.all isNum = false := by
      rw [List.all_eq_false]
      exact ⟨Value.null, hnull, by simp [isNum]⟩
    simp [Statistics.mean, Statistics.validateNumericColumn, h, hall]

/-- Witness for C1's amended theorem. -/
theorem mean_spec_witness :
    Statistics.mean [("a", [Value.num 1, Value.num 3])] "a" = .ok 2 ∧
    Statistics.mean [("b", [Value.num 1, Value.null])] "b" = .error (.typeError "b") := by
  constructor
  · have h := (mean_spec [("a", [Value.num 1, Value.num 3])] "a" _ rfl).1 (by decide)
    rw [h]
    norm_num [numVal, List.cons_ne_nil]
  · exact (mean_spec [("b", [Value.num 1, Value.null])] "b" _ rfl).2 (by decide)

/-- C3: on the spec's concrete scenario `{idade: [20, 30, None, 50]}`,
`fillna(method='mean')` does not fill the null with `100/3`: the `mean`
call's numeric validation rejects the `None` cell and the call raises,
leaving the dataset unchanged. -/
theorem fillna_mean_idade_raises :
    MissingValueProcessor.fillna [("idade", [.num 20, .num 30, .null, .num 50])]
      ["idade"] "mean" (.num 0)
    = (some (.typeError "idade"), [("idade", [.num 20, .num 30, .null, .num 50])]) := by
  decide

/-- C4 (counterexample): an unrecognized fill method does not fail with any
error — and it does mutate the dataset, overwriting null cells with `0`. -/
theorem fillna_invalid_method_cex :
    MissingValueProcessor.fillna [("a", [.null, .num 5])] ["a"] "bogus" (.num 7)
      = (none, [("a", [.num 0, .num 5])]) := by decide

/-- C4 (amended): for every method string outside
{mean, median, mode, default_value}, `fillna` silently keeps the loop's
initial `fill_value = 0`: it raises nothing and overwrites every null cell
of every (existing) target column with `0`, leaving non-target columns
unchanged. -/
theorem fillna_unknown_method_fills_zero (d : Dataset) (ts : List String)
    (method : String) (dv : Value)
    (hm1 : method ≠ "mean") (hm2 : method ≠ "median") (hm3 : method ≠ "mode")
    (hm4 : method ≠ "default_value")
    (hnd : ts.Nodup) (hex : ∀ c ∈ ts, (lookupCol d c).isSome) :
    (fillnaCols d ts method dv).1 = none ∧
    (∀ c ∈ ts, lookupCol (fillnaCols d ts method dv).2 c =
      (lookupCol d c).map (List.map (fun v => if v = Value.null then Value.num 0 else v))) ∧
    (∀ c, c ∉ ts → lookupCol (fillnaCols d ts method dv).2 c = lookupCol d c) := by
  induction ts generalizing d with
  | nil => exact ⟨rfl, by simp, fun c _ => rfl⟩
  | cons c0 rest ih =>
    have hfv : fillValueFor d c0 method dv = .ok (Value.num 0) := by
      simp [fillValueFor, hm1, hm2, hm3, hm4]
    obtain ⟨data, hdata⟩ := Option.isSome_iff_exists.mp (hex c0 (List.mem_cons_self c0 rest))
    have hstep : fillnaCols d (c0 :: rest) method dv =
        fillnaCols (setCol d c0 (data.map (fun v => if v = Value.null then Value.num 0 else v)))
          rest method dv := by
      simp [fillnaCols, hfv, hdata]
    set d1 := setCol d c0 (data.map (fun v => if v = Value.null then Value.num 0 else v))
      with hd1
    have hc0rest : c0 ∉ rest := (List.nodup_cons.mp hnd).1
    have hexr : ∀ c ∈ rest, (lookupCol d1 c).isSome := by
      intro c hc
      rw [hd1, lookup_setCol_ne d c0 c _ (fun hh => hc0rest (hh ▸ hc))]
      exact hex c (List.mem_cons_of_mem _ hc)
    obtain ⟨h1, h2, h3⟩ := ih d1 (List.nodup_cons.mp hnd).2 hexr
    refine ⟨by rw [hstep]; exact h1, ?_, ?_⟩
    · intro c hc
      rcases List.mem_cons.mp hc with rfl | hcr
      · rw [hstep, h3 c hc0rest, hd1, lookup_setCol_self, hdata]
        rfl
      · rw [hstep, h2 c hcr, hd1, lookup_setCol_ne d c0 c _ (fun hh => hc0rest (hh ▸ hcr))]
    · intro c hcn
      have hne : c ≠ c0 := fun hh => hcn (hh ▸ List.mem_cons_self c0 rest)
      rw [hstep, h3 c (fun hh => hcn (List.mem_cons_of_mem _ hh)), hd1,
        lookup_setCol_ne d c0 c _ hne]

/-- Witness for C4's amended theorem. -/
theorem fillna_unknown_method_witness :
    (fillnaCols [("a", [Value.null])] ["a"] "bogus" (Value.num 7)).1 = none ∧
    lookupCol (fillnaCols [("a", [Value.null])] ["a"] "bogus" (Value.num 7)).2 "a"
      = some [Value.num 0] := by
  have h := fillna_unknown_method_fills_zero [("a", [Value.null])] ["a"] "bogus" (Value.num 7)
    (by decide) (by decide) (by decide) (by decide) (by decide) (by decide)
  refine ⟨h.1, ?_⟩
  rw [h.2.1 "a" (List.mem_cons_self "a" [])]
  rfl

/-- C2 (amended): only `dropna` is atomic — when it fails, the dataset is
exactly as before the call (all its failure points precede the deletion
loop); the per-column loops of `fillna`, the scalers and the encoders can
instead leave earlier target columns already mutated when a later column
fails. -/
theorem dropna_atomic (d : Dataset) (columns : List String) (e : PyError)
    (h : (MissingValueProcessor.dropna d columns).1 = some e) :
    (MissingValueProcessor.dropna d columns).2 = d := by
  show (dropnaTs d (getTargetColumns d columns)).2 = d
  rcases hts : getTargetColumns d columns with _ | ⟨c0, rest⟩
  · rfl
  · replace h : (dropnaTs d (c0 :: rest)).1 = some e := by
      rw [← hts]; exact h
    cases hl : lookupCol d c0 with
    | none => simp [dropnaTs, hl]
    | some col0 =>
      cases hb : badIndices d (c0 :: rest) (List.range col0.length) with
      | error e' => simp [dropnaTs, hl, hb]
      | ok idxs =>
        exfalso
        simp [dropnaTs, hl, hb] at h

/-- Witness for C2's amended theorem. -/
theorem dropna_atomic_witness :
    (MissingValueProcessor.dropna [("a", [Value.num 1])] ["b"]).2 = [("a", [Value.num 1])] :=
  dropna_atomic _ _ (.keyError "b") (by decide)

/-- C2 (counterexample): a `minMax` scale call over the target columns
`["a", "b"]` fails on `"b"` (non-numeric) after having already rescaled
`"a"` — the failing call does not leave the dataset as it was. -/
theorem scale_partial_mutation_cex :
    Scaler.minMaxScaler [("a", [.num 0, .num 2]), ("b", [.str "x", .str "y"])] ["a", "b"]
      = (some (.typeError "b"), [("a", [.num 0, .num 1]), ("b", [.str "x", .str "y"])])
    ∧ ([("a", [Value.num 0, Value.num 1]), ("b", [Value.str "x", Value.str "y"])] : Dataset)
      ≠ [("a", [.num 0, .num 2]), ("b", [.str "x", .str "y"])] := by
  constructor
  · have hab : ¬(("a" : String) = "b") := by decide
    norm_num [Scaler.minMaxScaler, minMaxScaleCols, getTargetColumns,
      Statistics.validateNumericColumn, lookupCol, colD, isNum, numVal, listMin, listMax,
      setCol, keysOf, vnum_bne_null, vnum_ne_null, min_def, max_def, List.cons_ne_nil, hab]
  · decide

/-- C6 (amended): for `isna`, `notna`, `fillna`, `dropna` and `scale`, an
empty target-column argument means "all columns currently in the dataset",
resolved at call time through `_get_target_columns`; `encode`, however,
treats an empty column set as a warned no-op that leaves the dataset
unchanged and encodes nothing. -/
theorem empty_target_set_spec (d : Dataset) (method : String) (dv : Value) :
    getTargetColumns d [] = keysOf d ∧
    MissingValueProcessor.isna d [] = isnaTs d (keysOf d) ∧
    MissingValueProcessor.notna d [] = notnaTs d (keysOf d) ∧
    MissingValueProcessor.fillna d [] method dv = fillnaCols d (keysOf d) method dv ∧
    MissingValueProcessor.dropna d [] = dropnaTs d (keysOf d) ∧
    Scaler.minMaxScaler d [] = minMaxScaleCols d (keysOf d) ∧
    Preprocessing.encode d [] method = (none, d) :=
  ⟨rfl, rfl, rfl, rfl, rfl, rfl, rfl⟩

/-- C6 (counterexample): `encode` with an empty column set is a no-op; it
does not behave like "encode all columns", which would have relabelled the
column. -/
theorem encode_empty_noop_cex :
    Preprocessing.encode [("a", [.str "x", .str "y"])] [] "label"
      = (none, [("a", [.str "x", .str "y"])]) ∧
    Preprocessing.encode [("a", [.str "x", .str "y"])] ["a"] "label"
      = (none, [("a", [.num 0, .num 1])]) ∧
    ([("a", [Value.str "x", Value.str "y"])] : Dataset) ≠ [("a", [.num 0, .num 1])] := by
  decide

/-- C5 (counterexample): a column whose non-null values are numeric but
which contains a null is rejected by `minMax_scaler`'s validation — nulls
are not carried through the rescaling. -/
theorem minMax_null_cex :
    Scaler.minMaxScaler [("a", [.num 1, .null])] ["a"]
      = (some (.typeError "a"), [("a", [.num 1, .null])]) := by decide

/-- C5 (amended): on a non-empty column whose every value is numeric (so in
particular null-free), `minMax_scaler` succeeds and overwrites the column
with `(x − min) / (max − min)` per value, all values becoming `0.0` when
`max = min`. -/
theorem minMax_scaler_spec (d : Dataset) (c : String) (data : List Value)
    (h : lookupCol d c = some data) (hnum : data.all isNum) (hne : data ≠ []) :
    Scaler.minMaxScaler d [c] =
      (none, setCol d c (data.map (fun v =>
        Value.num (if listMax (data.map numVal) = listMin (data.map numVal) then 0
          else (numVal v - listMin (data.map numVal)) /
            (listMax (data.map numVal) - listMin (data.map numVal)))))) := by
  have hval : Statistics.validateNumericColumn d c = .ok () := by
    simp [Statistics.validateNumericColumn, h, hnum]
  have hcol : colD d c = data := by simp [colD, h]
  have hfilter : data.filter (fun x => x != Value.null) = data := by
    rw [List.filter_eq_self]
    intro a ha
    have hna := List.all_eq_true.mp hnum a ha
    cases a <;> simp_all [isNum]
  show minMaxScaleCols d [c] = _
  simp only [minMaxScaleCols, hval, hcol, hfilter, hne, if_neg, ite_false]
  refine congrArg (fun col => ((none : Option PyError), setCol d c col)) ?_
  by_cases hmm : listMax (data.map numVal) = listMin (data.map numVal)
  · rw [if_pos hmm]
    apply List.map_congr_left
    intro a ha
    rw [if_pos hmm]
    have hna := List.all_eq_true.mp hnum a ha
    cases a <;> simp_all [isNum]
  · rw [if_neg hmm]
    apply List.map_congr_left
    intro a ha
    rw [if_neg hmm]
    have hna := List.all_eq_true.mp hnum a ha
    cases a <;> simp_all [isNum]

/-- Witness for C5's amended theorem: the spec's concrete scenario
`[10, 20, 30, 40, 50] ↦ [0, 0.25, 0.5, 0.75, 1.0]`. -/
theorem minMax_scaler_spec_witness :
    Scaler.minMaxScaler [("feature", [.num 10, .num 20, .num 30, .num 40, .num 50])]
      ["feature"] =
      (none, [("feature", [.num 0, .num (1/4), .num (1/2), .num (3/4), .num 1])]) := by
  have h := minMax_scaler_spec [("feature", [.num 10, .num 20, .num 30, .num 40, .num 50])]
    "feature" _ rfl (by decide) (by decide)
  rw [h]
  norm_num [setCol, listMin, listMax, numVal, min_def, max_def]

/-- C10: on every column that mixes at least one null with at least one
numeric value, both encoders raise a `TypeError`: nulls become the string
sentinel `'__MISSING__'` and the distinct values then mix strings with
numbers, which Python's `sorted` cannot order. -/
theorem encode_null_numeric_mix_raises (d : Dataset) (c : String) (data : List Value)
    (h : lookupCol d c = some data) (hnull : Value.null ∈ data) (hnum : data.any isNum) :
    Encoder.labelEncode d [c] = (some (.typeError "unorderable types"), d) ∧
    Encoder.oneHotEncode d [c] = (some (.typeError "unorderable types"), d) := by
  have hs := mixed_error_core data hnull hnum
  constructor
  · simp [Encoder.labelEncode, h, hs]
  · simp [Encoder.oneHotEncode, h, hs]

/-- Witness for C10's theorem. -/
theorem encode_null_numeric_mix_witness :
    Encoder.labelEncode [("c", [Value.null, Value.num 3])] ["c"]
      = (some (.typeError "unorderable types"), [("c", [Value.null, Value.num 3])]) ∧
    Encoder.oneHotEncode [("c", [Value.null, Value.num 3])] ["c"]
      = (some (.typeError "unorderable types"), [("c", [Value.null, Value.num 3])]) :=
  encode_null_numeric_mix_raises _ "c" _ rfl (by decide) (by decide)

/-- C9: on every non-empty all-numeric column, `variance(col)` equals
`stdev(col) ** 2` exactly (over exact arithmetic, with `** 0.5` as the real
square root): both divide the sum of squared deviations from the mean by the
full count `N`. -/
theorem variance_eq_stdev_sq (d : Dataset) (c : String) (data : List Value)
    (h : lookupCol d c = some data) (hnum : data.all isNum) (hne : data ≠ []) :
    (Statistics.stdev d c).map (fun s => s ^ 2) =
      (Statistics.variance d c).map (fun q => (q : ℝ)) := by
  have hval : Statistics.validateNumericColumn d c = .ok () := by
    simp [Statistics.validateNumericColumn, h, hnum]
  have hcol : colD d c = data := by simp [colD, h]
  set m : ℚ := (data.map numVal).sum / data.length with hm
  have hmean : Statistics.mean d c = .ok m := by
    simp [Statistics.mean, hval, hcol, hne]
  have hdev : Statistics.deviationList d c = .ok ((data.map numVal).map (fun x => x - m)) := by
    simp [Statistics.deviationList, hmean, hcol]
  have hvar : Statistics.variance d c =
      .ok (((data.map numVal).map (fun x => (x - m) ^ 2)).sum / data.length) := by
    simp [Statistics.variance, hval, hcol, hne, hmean]
  have hfold : (((data.map numVal).map (fun x => x - m)).map (fun t => t ^ 2)).foldl (· + ·) 0
      = ((data.map numVal).map (fun x => (x - m) ^ 2)).sum := by
    rw [← List.sum_eq_foldl, List.map_map]
    rfl
  have hstdev : Statistics.stdev d c =
      .ok (Real.sqrt ((((data.map numVal).map (fun x => (x - m) ^ 2)).sum / data.length
        : ℚ) : ℝ)) := by
    simp only [Statistics.stdev, hval, hcol, hdev]
    rw [if_neg hne, hfold]
  rw [hstdev, hvar]
  simp only [Except.map]
  congr 1
  rw [Real.sq_sqrt]
  have hv : (0:ℚ) ≤ ((data.map numVal).map (fun x => (x - m) ^ 2)).sum / data.length := by
    apply div_nonneg
    · apply List.sum_nonneg
      intro x hx
      rcases List.mem_map.mp hx with ⟨y, _, rfl⟩
      positivity
    · positivity
  exact_mod_cast hv

/-- Witness for C9's theorem. -/
theorem variance_eq_stdev_sq_witness :
    (Statistics.stdev [("x", [Value.num 1, Value.num 2])] "x").map (fun s => s ^ 2) =
      (Statistics.variance [("x", [Value.num 1, Value.num 2])] "x").map (fun q => (q : ℝ)) :=
  variance_eq_stdev_sq _ "x" _ rfl (by decide) (by decide)

/-- Appending a batch of fresh, pairwise-distinct keys with dict assignment
is a plain append. -/
theorem foldl_setCol_eq (cats : List Value) (d : Dataset) (nm : Value → String)
    (f : Value → List Value)
    (hfresh : ∀ cat ∈ cats, lookupCol d (nm cat) = none)
    (hnd : (cats.map nm).Nodup) :
    cats.foldl (fun acc cat => setCol acc (nm cat) (f cat)) d
      = d ++ cats.map (fun cat => (nm cat, f cat)) := by
  induction cats generalizing d with
  | nil => simp
  | cons cat rest ih =>
    rw [List.foldl_cons, setCol_eq_append d _ _ (hfresh cat (List.mem_cons_self _ _))]
    have hq : ∀ q ∈ rest, lookupCol (d ++ [(nm cat, f cat)]) (nm q) = none := by
      intro q hqm
      rw [lookup_append_none d _ _ (hfresh q (List.mem_cons_of_mem _ hqm))]
      have hne' : ¬(nm cat = nm q) := by
        intro hh
        refine (List.nodup_cons.mp hnd).1 ?_
        rw [hh]
        exact List.mem_map.mpr ⟨q, hqm, rfl⟩
      simp [lookupCol, hne']
    rw [ih (d ++ [(nm cat, f cat)]) hq (List.nodup_cons.mp hnd).2, List.append_assoc]
    rfl

/-- An indicator sum over a list counts the occurrences of the tested value. -/
theorem sum_indicator_count (l : List Value) (v : Value) :
    (l.map (fun w => if v = w then (1:ℚ) else 0)).sum = l.count v := by
  induction l with
  | nil => simp
  | cons x xs ih =>
    by_cases hx : v = x
    · subst hx
      simp [ih, List.count_cons]
      ring
    · have hx' : ¬(x = v) := fun hh => hx (Eq.symm hh)
      simp [hx, ih, List.count_cons, hx']

/-- C8 (amended): `oneHotEncode({c})` appends, per distinct value `v` of `c`
in sorted order (null replaced by the sentinel), an indicator column named
`"c_v"`, then deletes `c`; provided none of the generated names collides
with an existing column and the names are pairwise distinct, the column
count grows by (distinct-count − 1) and in every row the new `c_*` columns
sum to exactly 1. -/
theorem oneHot_spec (d : Dataset) (c : String) (data : List Value) (cats : List Value)
    (h : lookupCol d c = some data)
    (hsort : sortCategories (firstOccs (data.map pySub)) = .ok cats)
    (hfresh : ∀ cat ∈ cats, lookupCol d (c ++ "_" ++ pyStr cat) = none)
    (hnames : (cats.map (fun cat => c ++ "_" ++ pyStr cat)).Nodup) :
    (Encoder.oneHotEncode d [c]).1 = none ∧
    (Encoder.oneHotEncode d [c]).2 =
      delCol d c ++ cats.map (fun cat => (c ++ "_" ++ pyStr cat,
        (data.map pySub).map (fun v => if v = cat then Value.num 1 else Value.num 0))) ∧
    (Encoder.oneHotEncode d [c]).2.length + 1 = d.length + cats.length ∧
    (∀ v ∈ data.map pySub,
      (cats.map (fun cat => if v = cat then (1:ℚ) else 0)).sum = 1) := by
  have hfoldl : cats.foldl (fun acc cat => setCol acc (c ++ "_" ++ pyStr cat)
      ((data.map pySub).map (fun v => if v = cat then Value.num 1 else Value.num 0))) d
      = d ++ cats.map (fun cat => (c ++ "_" ++ pyStr cat,
        (data.map pySub).map (fun v => if v = cat then Value.num 1 else Value.num 0))) :=
    foldl_setCol_eq cats d (fun cat => c ++ "_" ++ pyStr cat)
      (fun cat => (data.map pySub).map (fun v => if v = cat then Value.num 1 else Value.num 0))
      hfresh hnames
  have hrun : Encoder.oneHotEncode d [c] =
      (none, delCol d c ++ cats.map (fun cat => (c ++ "_" ++ pyStr cat,
        (data.map pySub).map (fun v => if v = cat then Value.num 1 else Value.num 0)))) := by
    simp only [Encoder.oneHotEncode, h, hsort, hfoldl]
    rw [delCol_append_left d _ c (by rw [h]; rfl)]
  have hcats : cats = sortLe valueLe (firstOccs (data.map pySub)) := by
    by_cases hcond : ((firstOccs (data.map pySub)).any isNum
        && (firstOccs (data.map pySub)).any isStr) = true
    · rw [sortCategories, if_pos hcond] at hsort
      cases hsort
    · rw [sortCategories, if_neg hcond] at hsort
      exact (Except.ok.inj hsort).symm
  refine ⟨by rw [hrun], by rw [hrun], ?_, ?_⟩
  · rw [hrun]
    simp only [List.length_append, List.length_map]
    have := length_delCol d c (by rw [h]; rfl)
    omega
  · intro v hv
    have hmem : v ∈ cats := by
      rw [hcats, mem_sortLe]
      exact (mem_firstOccs _ _).mpr hv
    have hnd : cats.Nodup := by
      rw [hcats]
      exact nodup_sortLe _ _ (nodup_firstOccs _)
    have hcount : cats.count v = 1 := List.count_eq_one_of_mem hnd hmem
    rw [sum_indicator_count, hcount]
    norm_num

/-- Witness for C8's amended theorem, on the repository's own
`cor = [azul, verde, vermelho, azul]` scenario. -/
theorem oneHot_spec_witness :
    (Encoder.oneHotEncode [("cor", [Value.str "azul", Value.str "verde",
        Value.str "vermelho", Value.str "azul"])] ["cor"]).2 =
      [("cor_azul", [Value.num 1, Value.num 0, Value.num 0, Value.num 1]),
       ("cor_verde", [Value.num 0, Value.num 1, Value.num 0, Value.num 0]),
       ("cor_vermelho", [Value.num 0, Value.num 0, Value.num 1, Value.num 0])] ∧
    (Encoder.oneHotEncode [("cor", [Value.str "azul", Value.str "verde",
        Value.str "vermelho", Value.str "azul"])] ["cor"]).2.length + 1 = 1 + 3 ∧
    (([Value.str "azul", Value.str "verde", Value.str "vermelho"] : List Value).map
      (fun cat => if Value.str "azul" = cat then (1:ℚ) else 0)).sum = 1 := by
  have h := oneHot_spec [("cor", [Value.str "azul", Value.str "verde",
      Value.str "vermelho", Value.str "azul"])] "cor" _
    [Value.str "azul", Value.str "verde", Value.str "vermelho"]
    rfl (by decide) (by decide) (by decide)
  exact ⟨h.2.1.trans (by decide), h.2.2.1, h.2.2.2 (Value.str "azul") (by decide)⟩

/-- C8 (counterexample): when a generated name collides with an existing
column (`c_a` already present while encoding `c` with value `a`), the
assignment overwrites the existing column instead of appending, so the
column count does not grow by (distinct-count − 1): here it shrinks from 2
to 1 although the distinct count is 1. -/
theorem oneHot_collision_cex :
    Encoder.oneHotEncode [("c", [.str "a"]), ("c_a", [.num 5])] ["c"]
      = (none, [("c_a", [.num 1])]) ∧
    (Encoder.oneHotEncode [("c", [.str "a"]), ("c_a", [.num 5])] ["c"]).2.length ≠
      ([("c", [Value.str "a"]), ("c_a", [Value.num 5])] : Dataset).length + 1 - 1 := by
  decide

theorem rowAnyNull_eq (d : Dataset) (ts : List String) (i : ℕ) (n : ℕ)
    (hts : ∀ c ∈ ts, ∃ col, lookupCol d c = some col ∧ col.length = n)
    (hi : i < n) :
    rowAnyNull d ts i = .ok (rowHasNullB d ts i) := by
  induction ts with
  | nil => rfl
  | cons c rest ih =>
    obtain ⟨col, hcol, hlen⟩ := hts c (List.mem_cons_self _ _)
    obtain ⟨v, hv⟩ : ∃ v, col[i]? = some v := by
      rw [List.getElem?_eq_getElem (hlen ▸ hi)]
      exact ⟨_, rfl⟩
    have hcell : getCell d c i = .ok v := by simp [getCell, hcol, hv]
    have hcold : colD d c = col := by simp [colD, hcol]
    by_cases hnull : v = Value.null
    · subst hnull
      simp [rowAnyNull, hcell, rowHasNullB, hcold, hv]
    · have hrest := ih (fun c' hc' => hts c' (List.mem_cons_of_mem _ hc'))
      simp [rowAnyNull, hcell, hnull, rowHasNullB, hcold, hv, hrest]

theorem badIndices_eq (d : Dataset) (ts : List String) (n : ℕ) (l : List ℕ)
    (hts : ∀ c ∈ ts, ∃ col, lookupCol d c = some col ∧ col.length = n)
    (hl : ∀ i ∈ l, i < n) :
    badIndices d ts l = .ok (l.filter (fun i => rowHasNullB d ts i)) := by
  induction l with
  | nil => rfl
  | cons i rest ih =>
    have hrow := rowAnyNull_eq d ts i n hts (hl i (List.mem_cons_self _ _))
    have hrest := ih (fun j hj => hl j (List.mem_cons_of_mem _ hj))
    by_cases hb : rowHasNullB d ts i <;>
      simp [badIndices, hrow, hrest, List.filter_cons, hb]

theorem insertLe_of_all_lt (a : ℕ) (m : List ℕ) (h : ∀ j ∈ m, a < j) :
    insertLe (fun i j => decide (j ≤ i)) a m = m ++ [a] := by
  induction m with
  | nil => rfl
  | cons j js ih =>
    have hja : ¬(j ≤ a) := Nat.not_le.mpr (h j (List.mem_cons_self _ _))
    simp [insertLe, hja, ih (fun x hx => h x (List.mem_cons_of_mem _ hx))]

theorem sortDesc_of_pairwise_lt (l : List ℕ) (h : l.Pairwise (· < ·)) :
    sortLe (fun i j => decide (j ≤ i)) l = l.reverse := by
  induction l with
  | nil => rfl
  | cons a as ih =>
    rw [List.pairwise_cons] at h
    show insertLe _ a (sortLe _ as) = (a :: as).reverse
    rw [ih h.2, insertLe_of_all_lt a as.reverse (fun j hj => h.1 j (List.mem_reverse.mp hj)),
      List.reverse_cons]

theorem eraseDesc_reverse (col : List Value) (idxs : List ℕ) :
    eraseDesc col idxs.reverse = idxs.foldr (fun i acc => acc.eraseIdx i) col := by
  rw [eraseDesc, List.foldl_reverse]

theorem foldr_eraseIdx_map_succ {α : Type _} (a : α) (as : List α) (G : List ℕ) :
    (G.map Nat.succ).foldr (fun i acc => acc.eraseIdx i) (a :: as)
      = a :: G.foldr (fun i acc => acc.eraseIdx i) as := by
  induction G with
  | nil => rfl
  | cons g gs ih =>
    simp only [List.map_cons, List.foldr_cons, ih, List.eraseIdx_cons_succ]

theorem foldr_eraseIdx_filter_range {α : Type _} (col : List α) (p : ℕ → Bool) :
    ((List.range col.length).filter p).foldr (fun i acc => acc.eraseIdx i) col
      = ((List.range col.length).filter (fun i => !p i)).filterMap (fun i => col[i]?) := by
  induction col generalizing p with
  | nil => rfl
  | cons a as ih =>
    rw [List.length_cons, List.range_succ_eq_map]
    rw [List.filter_cons, List.filter_cons]
    rw [List.filter_map, List.filter_map]
    by_cases hp : p 0
    · simp only [hp, if_pos, Bool.not_true, Bool.false_eq_true, if_neg, not_false_iff]
      rw [List.foldr_cons, foldr_eraseIdx_map_succ, List.eraseIdx_cons_zero]
      rw [List.filterMap_map]
      simp only [Function.comp_def, Nat.succ_eq_add_one, List.getElem?_cons_succ]
      rw [ih (fun i => p (i + 1))]
    · simp only [hp, Bool.not_false, if_neg, if_pos, not_false_iff, Bool.false_eq_true]
      rw [foldr_eraseIdx_map_succ, List.filterMap_cons, List.filterMap_map]
      simp only [Function.comp_def, Nat.succ_eq_add_one, List.getElem?_cons_succ,
        List.getElem?_cons_zero]
      rw [ih (fun i => p (i + 1))]

theorem length_filterMap_getElem {α : Type _} (l : List α) (idxs : List ℕ)
    (h : ∀ i ∈ idxs, i < l.length) :
    (idxs.filterMap (fun i => l[i]?)).length = idxs.length := by
  induction idxs with
  | nil => rfl
  | cons i rest ih =>
    obtain ⟨v, hv⟩ : ∃ v, l[i]? = some v := by
      rw [List.getElem?_eq_getElem (h i (List.mem_cons_self _ _))]
      exact ⟨_, rfl⟩
    simp [List.filterMap_cons, hv, ih (fun j hj => h j (List.mem_cons_of_mem _ hj))]

theorem mem_filterMap_getElem {α : Type _} (l : List α) (idxs : List ℕ) (v : α)
    (h : v ∈ idxs.filterMap (fun i => l[i]?)) : ∃ i ∈ idxs, l[i]? = some v := by
  rcases List.mem_filterMap.mp h with ⟨i, hi, hv⟩
  exact ⟨i, hi, hv⟩

theorem isnaLoop_ok_nil (d : Dataset) (ts : List String) (l : List ℕ)
    (hfalse : ∀ i ∈ l, rowAnyNull d ts i = .ok false) :
    isnaLoop d ts l = .ok [] := by
  induction l with
  | nil => rfl
  | cons i rest ih =>
    simp [isnaLoop, hfalse i (List.mem_cons_self _ _),
      ih (fun j hj => hfalse j (List.mem_cons_of_mem _ hj))]

theorem zipCols_nil (ts : List String) : zipCols ts [] = ts.map (fun c => (c, [])) := by
  induction ts with
  | nil => rfl
  | cons c cs ih => simp [zipCols, ih]

theorem isnaTs_no_nulls (d : Dataset) (ts : List String) (n : ℕ) (hne : ts ≠ [])
    (hts : ∀ c ∈ ts, ∃ col, lookupCol d c = some col ∧ col.length = n ∧
      ∀ v ∈ col, v ≠ Value.null) :
    isnaTs d ts = .ok (ts.map (fun c => (c, []))) := by
  rcases ts with _ | ⟨c0, rest⟩
  · exact absurd rfl hne
  · obtain ⟨col0, hcol0, hlen0, _⟩ := hts c0 (List.mem_cons_self _ _)
    have hfalse : ∀ i ∈ List.range col0.length, rowAnyNull d (c0 :: rest) i = .ok false := by
      intro i hi
      have hi' : i < n := hlen0 ▸ List.mem_range.mp hi
      rw [rowAnyNull_eq d (c0 :: rest) i n
        (fun c hc => (hts c hc).imp (fun col hcol => ⟨hcol.1, hcol.2.1⟩)) hi']
      have hfb : rowHasNullB d (c0 :: rest) i = false := by
        rw [rowHasNullB, List.any_eq_false]
        intro c hc
        obtain ⟨col, hcol, hlen, hnn⟩ := hts c hc
        obtain ⟨v, hv⟩ : ∃ v, col[i]? = some v := by
          rw [List.getElem?_eq_getElem (hlen ▸ hi')]
          exact ⟨_, rfl⟩
        have hvmem : v ∈ col := by
          have := List.getElem?_eq_some_iff.mp hv
          obtain ⟨hlt, hget⟩ := this
          exact hget ▸ List.getElem_mem hlt
        have hvnn := hnn v hvmem
        simp [colD, hcol, hv, hvnn]
      rw [hfb]
    have hloop := isnaLoop_ok_nil d (c0 :: rest) (List.range col0.length) hfalse
    simp [isnaTs, hcol0, hloop, zipCols_nil]

/-- C7: on a shape-consistent dataset whose target columns all exist,
`dropna` succeeds and removes exactly the rows with a null in at least one
target column, deleting them from every column of the dataset, preserving
the relative order of surviving rows and restoring the shape invariant
(every column ends with one cell per kept row); afterwards `isna` on the
same target-column argument yields all-empty columns. -/
theorem dropna_spec (d : Dataset) (cols ts : List String) (n : ℕ)
    (htc : getTargetColumns d cols = ts)
    (hne : ts ≠ [])
    (hts : ∀ c ∈ ts, (lookupCol d c).isSome)
    (hlen : ∀ p ∈ d, (Prod.snd p).length = n) :
    (MissingValueProcessor.dropna d cols).1 = none ∧
    (MissingValueProcessor.dropna d cols).2 =
      d.map (fun entry => (entry.1, (keepIdx d ts n).filterMap (fun i => entry.2[i]?))) ∧
    (∀ p ∈ (MissingValueProcessor.dropna d cols).2,
      (Prod.snd p).length = (keepIdx d ts n).length) ∧
    MissingValueProcessor.isna (MissingValueProcessor.dropna d cols).2 cols =
      .ok (ts.map (fun c => (c, []))) := by
  have hts' : ∀ c ∈ ts, ∃ col, lookupCol d c = some col ∧ col.length = n := by
    intro c hc
    obtain ⟨col, hcol⟩ := Option.isSome_iff_exists.mp (hts c hc)
    exact ⟨col, hcol, hlen (c, col) (lookup_mem d c col hcol)⟩
  rcases ts with _ | ⟨c0, rest⟩
  · exact absurd rfl hne
  · have hdrop : MissingValueProcessor.dropna d cols = dropnaTs d (c0 :: rest) := by
      rw [MissingValueProcessor.dropna, htc]
    obtain ⟨col0, hcol0, hlen0⟩ := hts' c0 (List.mem_cons_self _ _)
    have hbad : badIndices d (c0 :: rest) (List.range col0.length)
        = .ok ((List.range col0.length).filter (rowHasNullB d (c0 :: rest))) := by
      apply badIndices_eq d _ n _ hts'
      intro i hi
      exact hlen0 ▸ List.mem_range.mp hi
    have hpw : ((List.range col0.length).filter
        (rowHasNullB d (c0 :: rest))).Pairwise (· < ·) :=
      (List.pairwise_lt_range _).filter _
    have hsort := sortDesc_of_pairwise_lt _ hpw
    have hrun : dropnaTs d (c0 :: rest) = (none, d.map (fun entry =>
        (entry.1, eraseDesc entry.2 (((List.range col0.length).filter
          (rowHasNullB d (c0 :: rest))).reverse)))) := by
      simp only [dropnaTs, hcol0, hbad, hsort]
    have hcolEq : ∀ col : List Value, col.length = n →
        eraseDesc col (((List.range col0.length).filter
          (rowHasNullB d (c0 :: rest))).reverse)
        = (keepIdx d (c0 :: rest) n).filterMap (fun i => col[i]?) := by
      intro col hcl
      rw [eraseDesc_reverse, hlen0, ← hcl,
        foldr_eraseIdx_filter_range col (rowHasNullB d (c0 :: rest))]
      simp only [keepIdx]
    have hd2 : (dropnaTs d (c0 :: rest)).2 = d.map (fun entry =>
        (entry.1, (keepIdx d (c0 :: rest) n).filterMap (fun i => entry.2[i]?))) := by
      rw [hrun]
      apply List.map_congr_left
      intro entry hentry
      exact congrArg (Prod.mk entry.1) (hcolEq entry.2 (hlen entry hentry))
    have hkeepmem : ∀ i ∈ keepIdx d (c0 :: rest) n, i < n := by
      intro i hi
      simp only [keepIdx, List.mem_filter, List.mem_range] at hi
      exact hi.1
    have hkeepnot : ∀ i ∈ keepIdx d (c0 :: rest) n,
        rowHasNullB d (c0 :: rest) i = false := by
      intro i hi
      simp only [keepIdx, List.mem_filter] at hi
      simpa using hi.2
    have hlook' : ∀ c, lookupCol (d.map (fun entry =>
        (entry.1, (keepIdx d (c0 :: rest) n).filterMap (fun i => entry.2[i]?)))) c
        = (lookupCol d c).map
          (fun col => (keepIdx d (c0 :: rest) n).filterMap (fun i => col[i]?)) := by
      intro c
      exact lookup_map_snd d
        (fun col => (keepIdx d (c0 :: rest) n).filterMap (fun i => col[i]?)) c
    refine ⟨by rw [hdrop, hrun], by rw [hdrop]; exact hd2, ?_, ?_⟩
    · intro p hp
      rw [hdrop, hd2] at hp
      rcases List.mem_map.mp hp with ⟨entry, hentry, rfl⟩
      apply length_filterMap_getElem
      intro i hi
      rw [hlen entry hentry]
      exact hkeepmem i hi
    · have htc' : getTargetColumns (d.map (fun entry =>
          (entry.1, (keepIdx d (c0 :: rest) n).filterMap (fun i => entry.2[i]?)))) cols
          = c0 :: rest := by
        rcases cols with _ | ⟨c1, cs⟩
        · show keysOf (d.map _) = c0 :: rest
          rw [← htc]
          show keysOf _ = keysOf d
          simp [keysOf]
        · exact htc
      have hcols' : ∀ c ∈ c0 :: rest, ∃ col,
          lookupCol (d.map (fun entry =>
            (entry.1, (keepIdx d (c0 :: rest) n).filterMap (fun i => entry.2[i]?)))) c
            = some col ∧
          col.length = (keepIdx d (c0 :: rest) n).length ∧
          ∀ v ∈ col, v ≠ Value.null := by
        intro c hc
        obtain ⟨col, hcol, hcln⟩ := hts' c hc
        refine ⟨(keepIdx d (c0 :: rest) n).filterMap (fun i => col[i]?), ?_, ?_, ?_⟩
        · rw [hlook' c, hcol]
          rfl
        · apply length_filterMap_getElem
          intro i hi
          rw [hcln]
          exact hkeepmem i hi
        · intro v hv
          obtain ⟨i, hik, hvi⟩ := mem_filterMap_getElem col _ v hv
          have hfb := hkeepnot i hik
          rw [rowHasNullB, List.any_eq_false] at hfb
          have hfc := hfb c hc
          intro hveq
          subst hveq
          rw [colD, hcol] at hfc
          simp [hvi] at hfc
      rw [hdrop, hd2]
      rw [MissingValueProcessor.isna, htc']
      exact isnaTs_no_nulls _ (c0 :: rest) ((keepIdx d (c0 :: rest) n).length)
        (by simp) hcols'

/-- Witness for C7's theorem. -/
theorem dropna_spec_witness :
    (MissingValueProcessor.dropna
      [("a", [Value.num 1, Value.null, Value.num 3]),
       ("b", [Value.str "x", Value.str "y", Value.str "z"])] ["a"]).1 = none ∧
    (MissingValueProcessor.dropna
      [("a", [Value.num 1, Value.null, Value.num 3]),
       ("b", [Value.str "x", Value.str "y", Value.str "z"])] ["a"]).2 =
      [("a", [Value.num 1, Value.num 3]), ("b", [Value.str "x", Value.str "z"])] ∧
    MissingValueProcessor.isna (MissingValueProcessor.dropna
      [("a", [Value.num 1, Value.null, Value.num 3]),
       ("b", [Value.str "x", Value.str "y", Value.str "z"])] ["a"]).2 ["a"]
      = .ok [("a", [])] := by
  have h := dropna_spec
    [("a", [Value.num 1, Value.null, Value.num 3]),
     ("b", [Value.str "x", Value.str "y", Value.str "z"])] ["a"] ["a"] 3
    rfl (by decide) (by decide) (by decide)
  exact ⟨h.1, h.2.1.trans (by decide), h.2.2.2⟩

/-- C7 (counterexample): `dropna` does not handle every dataset/target-set
pair: on the empty dataset with an empty target set there are no rows to
remove, yet `target_columns[0]` raises an `IndexError`. -/
theorem dropna_empty_dataset_cex :
    MissingValueProcessor.dropna [] [] = (some PyError.indexError, []) := by decide
